import Mathlib

/-!
# Verification of `hdc::ringbuffer::RingBuffer`

A shallow embedding of the ring-buffer adapter from
`src/lib/include/RingBuffer.h` and `src/lib/src/RingBuffer.cpp`, together
with proofs of the specified properties.

The C++ class adapts a caller-supplied byte array of length `_size` into a
circular queue governed by two cursors `_read` and `_write`.  We model the
byte array as a `List Nat` (one entry per byte), `std::size_t` values as
`Nat` (the arithmetic never overflows for in-range cursor values), and
`std::memcpy` as list-segment replacement.  A destination pointer is
modelled by returning the list of bytes that the call copies out, plus a
null/non-null flag where it matters: `_readBytes` advances the destination
pointer after its first phase OUTSIDE the null guard
(`destination = static_cast<char *>(destination) + n;`, RingBuffer.cpp:382),
so a null destination (the discard path and `peekBytesAt`'s offset
simulation) that transfers bytes in phase 1 becomes a non-null invalid
pointer, and a wrap-crossing transfer then passes phase 2's
`destination != nullptr` check and calls `memcpy` through that near-null
pointer — undefined behaviour, modelled as `none`.
-/

namespace RingBufferModel

/-- Reads `n` bytes of `buf` starting at index `pos`
(`std::memcpy(dest, buf + pos, n)` viewed from the source side). -/
def readSeg (buf : List Nat) (pos n : Nat) : List Nat :=
  (buf.drop pos).take n

/-- Writes the bytes of `src` into `buf` starting at index `pos`
(`std::memcpy(buf + pos, src, src.length)` viewed from the target side). -/
def writeSeg (buf : List Nat) (pos : Nat) (src : List Nat) : List Nat :=
  buf.take pos ++ src ++ buf.drop (pos + src.length)

/-- The state of `hdc::ringbuffer::RingBuffer`: the client-supplied buffer
`_buffer`, its size `_size`, and the two cursors `_read` and `_write`. -/
structure RingBuffer where
  buffer : List Nat
  size : Nat
  read : Nat
  write : Nat
  deriving Repr, DecidableEq

/-- `RingBuffer::RingBuffer(buffer, size)`: stores the buffer and size and
sets `_read = size`, `_write = 0` (the empty encoding). -/
def mkRingBuffer (buffer : List Nat) (size : Nat) : RingBuffer :=
  ⟨buffer, size, size, 0⟩

/-- `RingBuffer::isEmpty()`: `_read == _size`. -/
def isEmpty (rb : RingBuffer) : Bool :=
  rb.read == rb.size

/-- `RingBuffer::isFull()`: `_write == _size`. -/
def isFull (rb : RingBuffer) : Bool :=
  rb.write == rb.size

/-- `RingBuffer::getReadableByteCount()`. -/
def getReadableByteCount (rb : RingBuffer) : Nat :=
  if isFull rb then rb.size
  else if rb.read > rb.write then rb.write + rb.size - rb.read
  else rb.write - rb.read

/-- `RingBuffer::getWritableByteCount()`. -/
def getWritableByteCount (rb : RingBuffer) : Nat :=
  if isFull rb then 0
  else if rb.read < rb.write then rb.read + rb.size - rb.write
  else rb.read - rb.write

/-- `RingBuffer::clear()`: `_read = _size; _write = 0`. -/
def clear (rb : RingBuffer) : RingBuffer :=
  ⟨rb.buffer, rb.size, rb.size, 0⟩

/-- `RingBuffer::_assertValid()`: the conditions asserted before and after
every operation (minus the null-pointer check, which the `List` model has no
analogue of; the buffer-length side condition expresses that the client
supplied `size` bytes, as the constructor contract requires). -/
def Valid (rb : RingBuffer) : Prop :=
  rb.buffer.length = rb.size ∧
  0 < rb.size ∧
  (rb.read < rb.size ∨ (rb.read = rb.size ∧ rb.write = 0)) ∧
  rb.write ≤ rb.size ∧
  rb.read ≠ rb.write

instance (rb : RingBuffer) : Decidable (Valid rb) := by
  unfold Valid; infer_instance

/-- `RingBuffer::writeBytes(source, count)` from `RingBuffer.cpp`.
Returns the number of bytes written and the new state.  The two sequential
`if` blocks of the source become the two "phases" below; phase 1 runs when
`_read < _write` and fills toward the end of the array (wrapping `_write`
to 0 if it hits the end while `_read > 0`), phase 2 runs when afterwards
`_read > _write` and fills up to the read cursor (encoding "full" as
`_write = _size`, and moving `_read` off its empty sentinel). -/
def writeBytes (rb : RingBuffer) (source : List Nat) (count : Nat) :
    Nat × RingBuffer :=
  if count = 0 ∨ isFull rb then (0, rb) else
  -- if (_read < _write) { ... }
  let n1 := if rb.read < rb.write then min count (rb.size - rb.write) else 0
  let buf1 := if rb.read < rb.write then
    writeSeg rb.buffer rb.write (source.take n1) else rb.buffer
  let w1a := rb.write + n1
  let w1 := if rb.read < rb.write ∧ w1a = rb.size ∧ 0 < rb.read then 0 else w1a
  let count1 := count - n1
  -- if (_read > _write) { ... }
  let n2 := if rb.read > w1 then min count1 (rb.read - w1) else 0
  let buf2 := if rb.read > w1 then
    writeSeg buf1 w1 ((source.drop n1).take n2) else buf1
  let w2a := w1 + n2
  let w2 := if rb.read > w1 ∧ w2a = rb.read then rb.size else w2a
  let r2 := if rb.read > w1 ∧ rb.read = rb.size then 0 else rb.read
  (count - (count1 - n2), ⟨buf2, rb.size, r2, w2⟩)

/-- `RingBuffer::_readBytes(destination, count, read, write)` specialized
to a NON-NULL destination (the `readBytes`/`peekBytes` path and the second
call of `peekBytesAt`): with a valid destination both `memcpy` guards pass
and the pointer advance at RingBuffer.cpp:382 is harmless, so the call is
total.  `memRead` is the member `_read` used by the `isEmpty()` guard (the
cursor arguments may be scratch copies, but the guard always inspects the
member).  Returns `(bytes transferred, bytes copied, read, write)`.  The
lemma `readBytesDest_false` proves this agrees with the full translation
`readBytesDest` at `destNull = false`; the null-destination path is NOT
this function (see `readBytesDest`). -/
def readBytesCore (buffer : List Nat) (size memRead count read write : Nat) :
    Nat × List Nat × Nat × Nat :=
  if count = 0 ∨ memRead = size then (0, [], read, write) else
  -- if (read > write || write == _size) { ... }
  let p1 := read > write ∨ write = size
  let w0 := if p1 then (if write = size then read else write) else write
  let n1 := if p1 then min count (size - read) else 0
  let out1 := if p1 then readSeg buffer read n1 else []
  let r1a := read + n1
  let r1 := if p1 ∧ r1a = size ∧ 0 < w0 then 0 else r1a
  let count1 := count - n1
  -- if (read < write) { ... }
  let n2 := if r1 < w0 then min count1 (w0 - r1) else 0
  let out2 := if r1 < w0 then out1 ++ readSeg buffer r1 n2 else out1
  let r2a := r1 + n2
  let emptied := r1 < w0 ∧ r2a = w0
  (count - (count1 - n2), out2,
    if emptied then size else r2a, if emptied then 0 else w0)

/-- `RingBuffer::_readBytes(destination, count, read, write)`, the full
translation: `destNull` says whether `destination` is null at entry (the
discard path and `peekBytesAt`'s offset simulation).  Each `memcpy` is
guarded by `destination != nullptr`, but the pointer advance after phase 1
(`destination = static_cast<char *>(destination) + n;`, RingBuffer.cpp:382)
is NOT: when the destination was null and phase 1 moved `n > 0` bytes, the
advanced pointer is non-null but invalid, so phase 2's guard
(RingBuffer.cpp:413) passes and its `memcpy` is called with a near-null
pointer — undefined behaviour, returned as `none`.  (The pointer
arithmetic on null at cpp:382 is itself ISO-undefined even when phase 2 is
not entered, but that path is exercised successfully by the repository's
own test suite — `testDiscard` discards from `read == 0` states — so the
model treats it as defined and flags only the executions that hand the
wild pointer to `memcpy`.) -/
def readBytesDest (buffer : List Nat) (size memRead : Nat) (destNull : Bool)
    (count read write : Nat) : Option (Nat × List Nat × Nat × Nat) :=
  if count = 0 ∨ memRead = size then some (0, [], read, write) else
  -- if (read > write || write == _size) { ... }
  let p1 := read > write ∨ write = size
  let w0 := if p1 then (if write = size then read else write) else write
  let n1 := if p1 then min count (size - read) else 0
  -- if (destination != nullptr) { std::memcpy(destination, _buffer + read, n); }
  let out1 := if p1 ∧ destNull = false then readSeg buffer read n1 else []
  let r1a := read + n1
  let r1 := if p1 ∧ r1a = size ∧ 0 < w0 then 0 else r1a
  let count1 := count - n1
  -- destination = static_cast<char *>(destination) + n;  (cpp:382, unguarded)
  -- if (read < write) { if (destination != nullptr) { memcpy through the
  -- advanced pointer } ... }
  if r1 < w0 ∧ destNull = true ∧ 0 < n1 then none else
  let n2 := if r1 < w0 then min count1 (w0 - r1) else 0
  let out2 := if r1 < w0 ∧ destNull = false then out1 ++ readSeg buffer r1 n2
    else out1
  let r2a := r1 + n2
  let emptied := r1 < w0 ∧ r2a = w0
  some (count - (count1 - n2), out2,
    if emptied then size else r2a, if emptied then 0 else w0)

/-- The condition under which `_readBytes` with a null destination reaches
the phase-2 `memcpy` with the pointer advanced at RingBuffer.cpp:382: the
guard falls through, phase 1 transfers at least one byte, and phase 2 is
entered.  Mirrors the phase-1 cursor computation of `_readBytes`. -/
def nullDestWild (size memRead count read write : Nat) : Bool :=
  if count = 0 ∨ memRead = size then false else
  let p1 := read > write ∨ write = size
  let w0 := if p1 then (if write = size then read else write) else write
  let n1 := if p1 then min count (size - read) else 0
  let r1a := read + n1
  let r1 := if p1 ∧ r1a = size ∧ 0 < w0 then 0 else r1a
  decide (r1 < w0 ∧ 0 < n1)

/-- `RingBuffer::readBytes(destination, count)`: `_readBytes` on the live
cursors with the caller's (non-null) destination; returns the count, the
bytes copied into `destination`, and the new state.  By
`readBytesDest_false` the non-null specialization `readBytesCore` is the
whole of `_readBytes` here. -/
def readBytes (rb : RingBuffer) (count : Nat) : Nat × List Nat × RingBuffer :=
  let res := readBytesCore rb.buffer rb.size rb.read count rb.read rb.write
  (res.1, res.2.1, ⟨rb.buffer, rb.size, res.2.2.1, res.2.2.2⟩)

/-- `RingBuffer::discardBytes(count)`: `_readBytes` with a null destination
on the live cursors.  `none` models the undefined behaviour of the
wrap-crossing discard (wild `memcpy` via the pointer advanced at
RingBuffer.cpp:382). -/
def discardBytes (rb : RingBuffer) (count : Nat) : Option (Nat × RingBuffer) :=
  match readBytesDest rb.buffer rb.size rb.read true count rb.read rb.write with
  | none => none
  | some res => some (res.1, ⟨rb.buffer, rb.size, res.2.2.1, res.2.2.2⟩)

/-- `RingBuffer::peekBytes(destination, count)`: `_readBytes` on scratch
copies of the cursors with the caller's (non-null) destination; the member
state is untouched. -/
def peekBytes (rb : RingBuffer) (count : Nat) : Nat × List Nat :=
  let res := readBytesCore rb.buffer rb.size rb.read count rb.read rb.write
  (res.1, res.2.1)

/-- `RingBuffer::peekBytesAt(destination, count, where)`: simulates a
discard of `whereOff` bytes on scratch cursors — passing `nullptr` as the
destination (RingBuffer.h:213), so a wrap-crossing offset hits the wild
`memcpy` of the advanced null pointer (`none`).  If the simulation
transfers fewer than `whereOff` bytes the call returns 0; otherwise it
peeks `count` bytes from the advanced scratch cursors with the real
(non-null) destination, which by `readBytesDest_false` is
`readBytesCore`.  Both inner `_readBytes` calls consult `isEmpty()` on
the member `_read`. -/
def peekBytesAt (rb : RingBuffer) (count whereOff : Nat) :
    Option (Nat × List Nat) :=
  match readBytesDest rb.buffer rb.size rb.read true whereOff rb.read rb.write with
  | none => none
  | some sim =>
    if sim.1 ≠ whereOff then some (0, []) else
    let res := readBytesCore rb.buffer rb.size rb.read count sim.2.2.1 sim.2.2.2
    some (res.1, res.2.1)

/-- The `assert(destination != nullptr)` at the head of
`RingBuffer::readBytes`: it inspects only the destination pointer,
regardless of `count`. -/
def readBytesDestAssert (destNull : Bool) (_count : Nat) : Bool :=
  !destNull

/-- The `assert(destination != nullptr)` at the head of
`RingBuffer::peekBytes`. -/
def peekBytesDestAssert (destNull : Bool) (_count : Nat) : Bool :=
  !destNull

/-- The `assert(destination != nullptr)` at the head of
`RingBuffer::peekBytesAt`. -/
def peekBytesAtDestAssert (destNull : Bool) (_count _whereOff : Nat) : Bool :=
  !destNull

/-- The queued bytes, oldest first, as a function of raw state values,
read off the state table in `RingBuffer.cpp`'s internal documentation:
empty when `_read == _size`; when full, the whole buffer starting at
`_read` and wrapping; when `_read > _write`, the tail from `_read` plus
the head up to `_write`; otherwise the span from `_read` to `_write`. -/
def contentsAt (buffer : List Nat) (S read write : Nat) : List Nat :=
  if read = S then []
  else if write = S then
    readSeg buffer read (S - read) ++ readSeg buffer 0 read
  else if write < read then
    readSeg buffer read (S - read) ++ readSeg buffer 0 write
  else
    readSeg buffer read (write - read)

/-- The queued bytes of a ring-buffer state, oldest first. -/
def contents (rb : RingBuffer) : List Nat :=
  contentsAt rb.buffer rb.size rb.read rb.write

/-! ## Segment lemmas

Basic facts about `readSeg` and `writeSeg`, the list models of the
`memcpy` source and target views. -/

theorem readSeg_length (buf : List Nat) (pos n : Nat) :
    (readSeg buf pos n).length = min n (buf.length - pos) := by
  simp [readSeg]

theorem readSeg_zero (buf : List Nat) (pos : Nat) : readSeg buf pos 0 = [] := by
  simp [readSeg]

/-- Unconditional length formula for `writeSeg`. -/
theorem writeSeg_length_formula (buf : List Nat) (pos : Nat) (src : List Nat) :
    (writeSeg buf pos src).length
      = min pos buf.length + (src.length + (buf.length - (pos + src.length))) := by
  simp [writeSeg]

theorem writeSeg_nil (buf : List Nat) (pos : Nat) : writeSeg buf pos [] = buf := by
  simp [writeSeg]

theorem writeSeg_length (buf : List Nat) (pos : Nat) (src : List Nat)
    (h : pos + src.length ≤ buf.length) :
    (writeSeg buf pos src).length = buf.length := by
  simp only [writeSeg, List.length_append, List.length_take, List.length_drop]
  omega

theorem readSeg_add (buf : List Nat) (pos m k : Nat) :
    readSeg buf pos (m + k) = readSeg buf pos m ++ readSeg buf (pos + m) k := by
  simp only [readSeg, List.take_add, List.drop_drop]

theorem readSeg_take (buf : List Nat) (pos m k : Nat) :
    (readSeg buf pos m).take k = readSeg buf pos (min k m) := by
  simp [readSeg, List.take_take]

theorem readSeg_drop (buf : List Nat) (pos m k : Nat) :
    (readSeg buf pos m).drop k = readSeg buf (pos + k) (m - k) := by
  simp only [readSeg, List.drop_take, List.drop_drop]

theorem readSeg_length_of_le (buf : List Nat) (pos n : Nat)
    (h : pos + n ≤ buf.length) : (readSeg buf pos n).length = n := by
  rw [readSeg_length]; omega

theorem readSeg_congr (buf : List Nat) (a b m k : Nat) (h1 : a = b)
    (h2 : m = k) : readSeg buf a m = readSeg buf b k := by
  rw [h1, h2]

theorem take_append_exact (A B : List Nat) (k m : Nat) (h : A.length = k) :
    (A ++ B).take (k + m) = A ++ B.take m := by
  subst h; exact List.take_append m

theorem drop_append_exact (A B : List Nat) (k m : Nat) (h : A.length = k) :
    (A ++ B).drop (k + m) = B.drop m := by
  subst h; exact List.drop_append m

/-- Reading a region entirely before the written block is unaffected. -/
theorem readSeg_writeSeg_before (buf : List Nat) (pos : Nat) (src : List Nat)
    (a n : Nat) (h1 : a + n ≤ pos) (h2 : pos ≤ buf.length) :
    readSeg (writeSeg buf pos src) a n = readSeg buf a n := by
  have hlt : (buf.take pos).length = pos := by simp; omega
  simp only [readSeg, writeSeg, List.append_assoc, List.drop_append_eq_append_drop,
    List.take_append_eq_append_take, hlt]
  have h3 : a - pos = 0 := by omega
  have h4 : n - ((buf.take pos).drop a).length = 0 := by
    rw [List.length_drop, hlt]; omega
  rw [h3, h4]
  simp only [List.drop_zero, List.take_zero, List.append_nil]
  rw [List.drop_take, List.take_take]
  simp only [Nat.zero_sub, List.take_zero, List.drop_zero, List.append_nil,
    List.nil_append]
  congr 1
  omega

/-- Reading a region entirely after the written block is unaffected. -/
theorem readSeg_writeSeg_after (buf : List Nat) (pos : Nat) (src : List Nat)
    (a n : Nat) (h1 : pos + src.length ≤ a) (h2 : pos + src.length ≤ buf.length) :
    readSeg (writeSeg buf pos src) a n = readSeg buf a n := by
  have hlt : (buf.take pos).length = pos := by simp; omega
  simp only [readSeg, writeSeg, List.append_assoc, List.drop_append_eq_append_drop, hlt]
  have h3 : (buf.take pos).drop a = [] := List.drop_eq_nil_of_le (by omega)
  have h4 : src.drop (a - pos) = [] := List.drop_eq_nil_of_le (by omega)
  rw [h3, h4, List.drop_drop]
  have h5 : pos + src.length + (a - pos - src.length) = a := by omega
  rw [h5]
  simp

/-- Reading exactly the written block returns the written bytes. -/
theorem readSeg_writeSeg_self (buf : List Nat) (pos : Nat) (src : List Nat)
    (h : pos + src.length ≤ buf.length) :
    readSeg (writeSeg buf pos src) pos src.length = src := by
  have hlt : (buf.take pos).length = pos := by simp; omega
  simp only [readSeg, writeSeg, List.append_assoc, List.drop_append_eq_append_drop, hlt]
  have h3 : (buf.take pos).drop pos = [] := List.drop_eq_nil_of_le (by omega)
  rw [h3, Nat.sub_self, List.drop_zero, List.nil_append,
    List.take_append_eq_append_take, List.take_length, Nat.sub_self, List.take_zero,
    List.append_nil]

/-- Reading the written block back, with the length given explicitly. -/
theorem readSeg_writeSeg_self_len (buf : List Nat) (pos : Nat) (src : List Nat)
    (k : Nat) (hk : src.length = k) (h : pos + k ≤ buf.length) :
    readSeg (writeSeg buf pos src) pos k = src := by
  subst hk; exact readSeg_writeSeg_self buf pos src h

/-! ## Cursor arithmetic -/

/-- The readable count as a function of raw cursor values (the body of
`getReadableByteCount`). -/
def readableAt (S read write : Nat) : Nat :=
  if write = S then S
  else if read > write then write + S - read
  else write - read

/-- The writable count as a function of raw cursor values (the body of
`getWritableByteCount`). -/
def writableAt (S read write : Nat) : Nat :=
  if write = S then 0
  else if read < write then read + S - write
  else read - write

theorem getReadableByteCount_eq (rb : RingBuffer) :
    getReadableByteCount rb = readableAt rb.size rb.read rb.write := by
  simp [getReadableByteCount, readableAt, isFull, beq_iff_eq]

theorem getWritableByteCount_eq (rb : RingBuffer) :
    getWritableByteCount rb = writableAt rb.size rb.read rb.write := by
  simp [getWritableByteCount, writableAt, isFull, beq_iff_eq]

/-- The cursor conditions of `_assertValid` as a function of raw values. -/
def CursorsOK (S read write : Nat) : Prop :=
  (read < S ∨ (read = S ∧ write = 0)) ∧ write ≤ S ∧ read ≠ write

theorem valid_iff (rb : RingBuffer) :
    Valid rb ↔ rb.buffer.length = rb.size ∧ 0 < rb.size ∧
      CursorsOK rb.size rb.read rb.write := by
  unfold Valid CursorsOK
  tauto

set_option maxHeartbeats 1600000 in
/-- Count and cursor behaviour of `_readBytes`: it transfers
`min count readable` bytes, preserves the cursor invariant, and moves
`readable` down (and `writable` up) by exactly the transferred count. -/
theorem readBytesCore_arith (buffer : List Nat) (S memRead count read write : Nat)
    (hS : 0 < S) (hok : CursorsOK S read write)
    (hmem : memRead = S ↔ read = S)
    {n : Nat} {out : List Nat} {read' write' : Nat}
    (h : readBytesCore buffer S memRead count read write = (n, out, read', write')) :
    n = min count (readableAt S read write) ∧
    CursorsOK S read' write' ∧
    readableAt S read' write' = readableAt S read write - n ∧
    writableAt S read' write' = writableAt S read write + n := by
  obtain ⟨hr, hw, hne⟩ := hok
  by_cases hrs : read = S
  · have hm : memRead = S := hmem.mpr hrs
    have hw0 : write = 0 := by rcases hr with h | h; omega; exact h.2
    simp only [readBytesCore] at h
    rw [if_pos (Or.inr hm), Prod.mk.injEq, Prod.mk.injEq, Prod.mk.injEq] at h
    obtain ⟨h1, _, h3, h4⟩ := h
    subst h1 h3 h4
    refine ⟨?_, ⟨hr, hw, hne⟩, ?_, ?_⟩ <;>
      (simp only [readableAt, writableAt]; split_ifs <;> omega)
  · have hm : memRead ≠ S := fun hx => hrs (hmem.mp hx)
    by_cases hc : count = 0
    · simp only [readBytesCore] at h
      rw [if_pos (Or.inl hc), Prod.mk.injEq, Prod.mk.injEq, Prod.mk.injEq] at h
      obtain ⟨h1, _, h3, h4⟩ := h
      subst h1 h3 h4
      refine ⟨?_, ⟨hr, hw, hne⟩, ?_, ?_⟩ <;>
        (simp only [readableAt, writableAt]; split_ifs <;> omega)
    · simp only [readBytesCore] at h
      rw [if_neg (by tauto)] at h
      split_ifs at h <;>
        (rw [Prod.mk.injEq, Prod.mk.injEq, Prod.mk.injEq] at h
         obtain ⟨h1, _, h3, h4⟩ := h
         subst h1 h3 h4
         refine ⟨?_, ⟨?_, ?_, ?_⟩, ?_, ?_⟩ <;>
           ((try simp only [readableAt, writableAt]) <;>
             (first | omega | (split_ifs <;> omega) | tauto)))

set_option maxHeartbeats 1600000 in
/-- Count, cursor and buffer-length behaviour of `writeBytes`: it transfers
`min count writable` bytes, preserves the cursor invariant and the buffer
length, and moves `writable` down (and `readable` up) by exactly the
transferred count. -/
theorem writeBytes_arith (rb : RingBuffer) (source : List Nat) (count : Nat)
    (hv : Valid rb) {n : Nat} {rb' : RingBuffer}
    (h : writeBytes rb source count = (n, rb')) :
    n = min count (writableAt rb.size rb.read rb.write) ∧
    CursorsOK rb.size rb'.read rb'.write ∧
    rb'.size = rb.size ∧
    rb'.buffer.length = rb.buffer.length ∧
    readableAt rb.size rb'.read rb'.write
      = readableAt rb.size rb.read rb.write + n ∧
    writableAt rb.size rb'.read rb'.write
      = writableAt rb.size rb.read rb.write - n := by
  obtain ⟨hlen, hS, hr, hw, hne⟩ := hv
  by_cases hg : count = 0 ∨ isFull rb
  · simp only [writeBytes] at h
    rw [if_pos hg, Prod.mk.injEq] at h
    obtain ⟨h1, h2⟩ := h
    subst h1; subst h2
    have hg' : count = 0 ∨ rb.write = rb.size := by
      rcases hg with h | h
      · exact Or.inl h
      · exact Or.inr (by simpa [isFull, beq_iff_eq] using h)
    refine ⟨?_, ⟨hr, hw, hne⟩, rfl, rfl, ?_, ?_⟩ <;>
      (simp only [readableAt, writableAt]; split_ifs <;> omega)
  · have hnf : rb.write ≠ rb.size := fun hx =>
      hg (Or.inr (by simp [isFull, beq_iff_eq, hx]))
    simp only [writeBytes] at h
    rw [if_neg hg] at h
    split_ifs at h <;>
      (rw [Prod.mk.injEq] at h
       obtain ⟨h1, h2⟩ := h
       subst h1; subst h2
       refine ⟨?_, ⟨?_, ?_, ?_⟩, rfl, ?_, ?_, ?_⟩ <;>
         ((try simp only [readableAt, writableAt, writeSeg_length_formula,
             List.length_take, List.length_drop]) <;>
           (first | omega | (split_ifs <;> omega) | tauto)))

/-! ## Content behaviour -/

theorem contentsAt_length (buffer : List Nat) (S read write : Nat)
    (hS : 0 < S) (hlen : buffer.length = S) (hok : CursorsOK S read write) :
    (contentsAt buffer S read write).length = readableAt S read write := by
  obtain ⟨hr, hw, hne⟩ := hok
  simp only [contentsAt, readableAt]
  split_ifs <;> simp [readSeg_length, hlen] <;> omega

set_option maxHeartbeats 1600000 in
/-- Content behaviour of `_readBytes`: the copied bytes are the first `n`
queued bytes, and the remaining queue is the old queue with those bytes
removed. -/
theorem readBytesCore_contents (buffer : List Nat)
    (S memRead count read write : Nat)
    (hS : 0 < S) (hlen : buffer.length = S) (hok : CursorsOK S read write)
    (hmem : memRead = S ↔ read = S)
    {n : Nat} {out : List Nat} {read' write' : Nat}
    (h : readBytesCore buffer S memRead count read write = (n, out, read', write')) :
    out = (contentsAt buffer S read write).take n ∧
    contentsAt buffer S read' write' = (contentsAt buffer S read write).drop n := by
  obtain ⟨hr, hw, hne⟩ := hok
  obtain ⟨hn, -, -, -⟩ :=
    readBytesCore_arith buffer S memRead count read write hS ⟨hr, hw, hne⟩ hmem h
  by_cases hrs : read = S
  · -- empty buffer: the guard returns immediately
    have hm : memRead = S := hmem.mpr hrs
    rw [readBytesCore] at h
    rw [if_pos (Or.inr hm), Prod.mk.injEq, Prod.mk.injEq, Prod.mk.injEq] at h
    obtain ⟨rfl, rfl, rfl, rfl⟩ := h
    simp
  · have hm : ¬memRead = S := fun hx => hrs (hmem.mp hx)
    have hlt : read < S := by omega
    by_cases hc : count = 0
    · rw [readBytesCore] at h
      rw [if_pos (Or.inl hc), Prod.mk.injEq, Prod.mk.injEq, Prod.mk.injEq] at h
      obtain ⟨rfl, rfl, rfl, rfl⟩ := h
      simp
    · -- a transfer happens; follow the state table of `RingBuffer.cpp`
      have hAlen : (readSeg buffer read (S - read)).length = S - read :=
        readSeg_length_of_le _ _ _ (by omega)
      simp only [readBytesCore] at h
      rw [if_neg (by tauto)] at h
      by_cases hfull : write = S
      · -- full buffer
        rw [show readableAt S read write = S by
          simp only [readableAt]; rw [if_pos hfull]] at hn
        have hold : contentsAt buffer S read write
            = readSeg buffer read (S - read) ++ readSeg buffer 0 read := by
          simp only [contentsAt]; rw [if_neg hrs, if_pos hfull]
        by_cases hr0 : read = 0
        · -- full, read at the beginning: one contiguous span, no wrap
          split_ifs at h
          all_goals try (exfalso; omega)
          rw [Prod.mk.injEq, Prod.mk.injEq, Prod.mk.injEq] at h
          obtain ⟨rfl, rfl, rfl, rfl⟩ := h
          rw [hn, hold, hr0]
          simp only [Nat.sub_zero, Nat.add_zero, Nat.zero_add, readSeg_zero,
            List.append_nil]
          constructor
          · rw [readSeg_take]
            exact readSeg_congr _ _ _ _ _ rfl (by omega)
          · rw [readSeg_drop, Nat.zero_add]
            by_cases hfill : min count S = S
            · rw [show S - min count S = 0 by omega, readSeg_zero]
              simp only [contentsAt]
              rw [if_pos (by omega)]
            · simp only [contentsAt]
              rw [if_neg (by omega), if_neg (by omega), if_pos (by omega),
                readSeg_zero, List.append_nil]
        · -- full, read in the middle: the read wraps past the end
          have hrpos : 0 < read := by omega
          by_cases hwrapc : read + min count (S - read) = S
          · by_cases hempt : min (count - min count (S - read)) read = read
            · -- drains the whole queue: buffer becomes empty
              split_ifs at h
              all_goals try (exfalso; omega)
              rw [Prod.mk.injEq, Prod.mk.injEq, Prod.mk.injEq] at h
              obtain ⟨rfl, rfl, rfl, rfl⟩ := h
              rw [hn, hold]
              constructor
              · rw [show min count S
                    = (S - read) + min (count - (S - read)) read by omega,
                  take_append_exact _ _ _ _ hAlen, readSeg_take]
                congr 1
                · exact readSeg_congr _ _ _ _ _ rfl (by omega)
                · exact readSeg_congr _ _ _ _ _ rfl (by omega)
              · rw [show contentsAt buffer S S 0 = [] by simp [contentsAt]]
                rw [eq_comm, List.drop_eq_nil_iff]
                simp only [List.length_append, hAlen, readSeg_length, hlen]
                omega
            · -- wraps and stops inside the head span
              split_ifs at h
              all_goals try (exfalso; omega)
              rw [Prod.mk.injEq, Prod.mk.injEq, Prod.mk.injEq] at h
              obtain ⟨rfl, rfl, rfl, rfl⟩ := h
              rw [hn, hold]
              constructor
              · rw [show min count S
                    = (S - read) + min (count - (S - read)) read by omega,
                  take_append_exact _ _ _ _ hAlen, readSeg_take]
                congr 1
                · exact readSeg_congr _ _ _ _ _ rfl (by omega)
                · exact readSeg_congr _ _ _ _ _ rfl (by omega)
              · rw [show min count S
                    = (S - read) + min (count - (S - read)) read by omega,
                  drop_append_exact _ _ _ _ hAlen, readSeg_drop]
                rw [show contentsAt buffer S
                      (0 + min (count - min count (S - read)) (read - 0)) read
                    = readSeg buffer
                        (0 + min (count - min count (S - read)) (read - 0))
                        (read
                          - (0 + min (count - min count (S - read)) (read - 0)))
                    by
                  simp only [contentsAt]
                  rw [if_neg (by omega), if_neg (by omega), if_neg (by omega)]]
                exact readSeg_congr _ _ _ _ _ (by omega) (by omega)
          · -- stays within the tail span
            split_ifs at h
            all_goals try (exfalso; omega)
            rw [Prod.mk.injEq, Prod.mk.injEq, Prod.mk.injEq] at h
            obtain ⟨rfl, rfl, rfl, rfl⟩ := h
            rw [hn, hold]
            constructor
            · rw [List.take_append_of_le_length (by rw [hAlen]; omega),
                readSeg_take]
              exact readSeg_congr _ _ _ _ _ rfl (by omega)
            · rw [List.drop_append_of_le_length (by rw [hAlen]; omega),
                readSeg_drop]
              rw [show contentsAt buffer S (read + min count (S - read) + 0) read
                  = readSeg buffer (read + min count (S - read) + 0)
                      (S - (read + min count (S - read) + 0))
                      ++ readSeg buffer 0 read by
                simp only [contentsAt]
                rw [if_neg (by omega), if_neg hrs, if_pos (by omega)]]
              congr 1
              exact readSeg_congr _ _ _ _ _ (by omega) (by omega)
      · -- not full
        by_cases hgt : write < read
        · -- queued bytes wrap: tail span plus head span
          rw [show readableAt S read write = write + S - read by
            simp only [readableAt]; rw [if_neg hfull, if_pos hgt]] at hn
          have hold : contentsAt buffer S read write
              = readSeg buffer read (S - read) ++ readSeg buffer 0 write := by
            simp only [contentsAt]; rw [if_neg hrs, if_neg hfull, if_pos hgt]
          by_cases hwrapc : read + min count (S - read) = S
          · by_cases hwpos : 0 < write
            · by_cases hempt2 : min (count - min count (S - read)) write = write
              · -- drains the whole queue
                split_ifs at h
                all_goals try (exfalso; omega)
                rw [Prod.mk.injEq, Prod.mk.injEq, Prod.mk.injEq] at h
                obtain ⟨rfl, rfl, rfl, rfl⟩ := h
                rw [hn, hold]
                constructor
                · rw [show min count (write + S - read)
                      = (S - read) + min (count - (S - read)) write by omega,
                    take_append_exact _ _ _ _ hAlen, readSeg_take]
                  congr 1
                  · exact readSeg_congr _ _ _ _ _ rfl (by omega)
                  · exact readSeg_congr _ _ _ _ _ rfl (by omega)
                · rw [show contentsAt buffer S S 0 = [] by simp [contentsAt]]
                  rw [eq_comm, List.drop_eq_nil_iff]
                  simp only [List.length_append, hAlen, readSeg_length, hlen]
                  omega
              · -- wraps and stops inside the head span
                split_ifs at h
                all_goals try (exfalso; omega)
                rw [Prod.mk.injEq, Prod.mk.injEq, Prod.mk.injEq] at h
                obtain ⟨rfl, rfl, rfl, rfl⟩ := h
                rw [hn, hold]
                constructor
                · rw [show min count (write + S - read)
                      = (S - read) + min (count - (S - read)) write by omega,
                    take_append_exact _ _ _ _ hAlen, readSeg_take]
                  congr 1
                  · exact readSeg_congr _ _ _ _ _ rfl (by omega)
                  · exact readSeg_congr _ _ _ _ _ rfl (by omega)
                · rw [show min count (write + S - read)
                      = (S - read) + min (count - (S - read)) write by omega,
                    drop_append_exact _ _ _ _ hAlen, readSeg_drop]
                  rw [show contentsAt buffer S
                        (0 + min (count - min count (S - read)) (write - 0))
                        write
                      = readSeg buffer
                          (0 + min (count - min count (S - read)) (write - 0))
                          (write
                            - (0 + min (count - min count (S - read))
                                (write - 0)))
                      by
                    simp only [contentsAt]
                    rw [if_neg (by omega), if_neg hfull, if_neg (by omega)]]
                  exact readSeg_congr _ _ _ _ _ (by omega) (by omega)
            · -- write cursor at 0: the tail span is the whole queue
              have hw0 : write = 0 := by omega
              split_ifs at h
              all_goals try (exfalso; omega)
              rw [Prod.mk.injEq, Prod.mk.injEq, Prod.mk.injEq] at h
              obtain ⟨rfl, rfl, rfl, rfl⟩ := h
              rw [hn, hold]
              constructor
              · rw [List.take_append_of_le_length (by rw [hAlen]; omega),
                  readSeg_take]
                exact readSeg_congr _ _ _ _ _ rfl (by omega)
              · rw [show contentsAt buffer S (read + min count (S - read) + 0)
                      write = [] by
                  simp only [contentsAt]; rw [if_pos (by omega)]]
                rw [eq_comm, List.drop_eq_nil_iff]
                simp only [List.length_append, hAlen, readSeg_length, hlen]
                omega
          · -- stays within the tail span
            split_ifs at h
            all_goals try (exfalso; omega)
            rw [Prod.mk.injEq, Prod.mk.injEq, Prod.mk.injEq] at h
            obtain ⟨rfl, rfl, rfl, rfl⟩ := h
            rw [hn, hold]
            constructor
            · rw [List.take_append_of_le_length (by rw [hAlen]; omega),
                readSeg_take]
              exact readSeg_congr _ _ _ _ _ rfl (by omega)
            · rw [List.drop_append_of_le_length (by rw [hAlen]; omega),
                readSeg_drop]
              rw [show contentsAt buffer S (read + min count (S - read) + 0)
                    write
                  = readSeg buffer (read + min count (S - read) + 0)
                      (S - (read + min count (S - read) + 0))
                      ++ readSeg buffer 0 write by
                simp only [contentsAt]
                rw [if_neg (by omega), if_neg hfull, if_pos (by omega)]]
              congr 1
              exact readSeg_congr _ _ _ _ _ (by omega) (by omega)
        · -- queued bytes are one contiguous span from read to write
          have hlt2 : read < write := by omega
          rw [show readableAt S read write = write - read by
            simp only [readableAt]; rw [if_neg hfull, if_neg (by omega)]] at hn
          have hold : contentsAt buffer S read write
              = readSeg buffer read (write - read) := by
            simp only [contentsAt]
            rw [if_neg hrs, if_neg hfull, if_neg (by omega)]
          by_cases hempty : read + min count (write - read) = write
          · -- drains the whole queue
            split_ifs at h
            all_goals try (exfalso; omega)
            rw [Prod.mk.injEq, Prod.mk.injEq, Prod.mk.injEq] at h
            obtain ⟨rfl, rfl, rfl, rfl⟩ := h
            rw [hn, hold]
            constructor
            · rw [List.nil_append, readSeg_take]
              exact readSeg_congr _ _ _ _ _ (by omega) (by omega)
            · rw [show contentsAt buffer S S 0 = [] by simp [contentsAt]]
              rw [eq_comm, List.drop_eq_nil_iff]
              simp only [readSeg_length, hlen]
              omega
          · -- stops inside the span
            split_ifs at h
            all_goals try (exfalso; omega)
            rw [Prod.mk.injEq, Prod.mk.injEq, Prod.mk.injEq] at h
            obtain ⟨rfl, rfl, rfl, rfl⟩ := h
            rw [hn, hold]
            constructor
            · rw [List.nil_append, readSeg_take]
              exact readSeg_congr _ _ _ _ _ (by omega) (by omega)
            · rw [readSeg_drop]
              rw [show contentsAt buffer S
                    (read + 0 + min (count - 0) (write - (read + 0))) write
                  = readSeg buffer
                      (read + 0 + min (count - 0) (write - (read + 0)))
                      (write
                        - (read + 0 + min (count - 0) (write - (read + 0))))
                  by
                simp only [contentsAt]
                rw [if_neg (by omega), if_neg hfull, if_neg (by omega)]]
              exact readSeg_congr _ _ _ _ _ (by omega) (by omega)

set_option maxHeartbeats 1600000 in
/-- Content behaviour of `writeBytes`: the accepted bytes are appended to
the queue. -/
theorem writeBytes_contents (rb : RingBuffer) (source : List Nat) (count : Nat)
    (hv : Valid rb) (hsrc : count ≤ source.length)
    {n : Nat} {rb' : RingBuffer} (h : writeBytes rb source count = (n, rb')) :
    contents rb' = contents rb ++ source.take n := by
  obtain ⟨buf, S, read, write⟩ := rb
  have hlen : buf.length = S := hv.1
  have hS : 0 < S := hv.2.1
  have hr : read < S ∨ (read = S ∧ write = 0) := hv.2.2.1
  have hw : write ≤ S := hv.2.2.2.1
  have hne : read ≠ write := hv.2.2.2.2
  clear hv
  simp only [writeBytes, isFull, beq_iff_eq] at h
  by_cases hg : count = 0 ∨ write = S
  · rw [if_pos hg, Prod.mk.injEq] at h
    obtain ⟨rfl, rfl⟩ := h
    simp
  · rw [if_neg hg] at h
    have hc : ¬ count = 0 := fun hx => hg (Or.inl hx)
    have hnfull : ¬ write = S := fun hx => hg (Or.inr hx)
    by_cases hempty : read = S
    · -- empty buffer: only phase 2 runs, from the beginning of the array
      have hw0 : write = 0 := by rcases hr with hx | hx; omega; exact hx.2
      by_cases hfb : write + min count (read - write) = read
      · -- the write fills the buffer completely
        split_ifs at h
        all_goals try (exfalso; omega)
        rw [Prod.mk.injEq] at h
        obtain ⟨rfl, rfl⟩ := h
        simp only [contents, Nat.add_zero, Nat.zero_add, Nat.sub_zero,
          List.drop_zero]
        rw [hempty, hw0]
        simp only [Nat.sub_zero, Nat.zero_add, Nat.add_zero]
        rw [show contentsAt buf S S 0 = [] by simp [contentsAt],
          List.nil_append]
        rw [show count - (count - min count S) = min count S by omega]
        rw [show contentsAt
              (writeSeg buf 0 (List.take (min count S) source)) S 0 S
            = readSeg (writeSeg buf 0 (List.take (min count S) source)) 0 S
              ++ readSeg (writeSeg buf 0 (List.take (min count S) source)) 0 0
            by
          simp only [contentsAt, Nat.sub_zero]
          split_ifs <;> first | rfl | (exfalso; omega)]
        rw [readSeg_zero, List.append_nil]
        exact readSeg_writeSeg_self_len _ _ _ _
          (by first | omega | (simp only [writeSeg_length_formula, List.length_take, List.length_drop]; omega)) (by first | omega | (simp only [writeSeg_length_formula, List.length_take, List.length_drop]; omega))
      · -- the write ends below capacity
        split_ifs at h
        all_goals try (exfalso; omega)
        rw [Prod.mk.injEq] at h
        obtain ⟨rfl, rfl⟩ := h
        simp only [contents, Nat.add_zero, Nat.zero_add, Nat.sub_zero,
          List.drop_zero]
        rw [hempty, hw0]
        simp only [Nat.sub_zero, Nat.zero_add, Nat.add_zero]
        rw [show contentsAt buf S S 0 = [] by simp [contentsAt],
          List.nil_append]
        rw [show count - (count - min count S) = min count S by omega]
        rw [show contentsAt
              (writeSeg buf 0 (List.take (min count S) source)) S 0
              (min count S)
            = readSeg (writeSeg buf 0 (List.take (min count S) source)) 0
                (min count S)
            by
          simp only [contentsAt, Nat.sub_zero]
          split_ifs <;> first | rfl | (exfalso; omega)]
        exact readSeg_writeSeg_self_len _ _ _ _
          (by first | omega | (simp only [writeSeg_length_formula, List.length_take, List.length_drop]; omega)) (by first | omega | (simp only [writeSeg_length_formula, List.length_take, List.length_drop]; omega))
    · -- non-empty buffer
      have hltS : read < S := by omega
      by_cases hlt : read < write
      · -- data in the middle: phase 1 fills toward the end of the array
        have hold : contentsAt buf S read write
            = readSeg buf read (write - read) := by
          simp only [contentsAt]
          rw [if_neg hempty, if_neg hnfull, if_neg (by first | omega | (simp only [writeSeg_length_formula, List.length_take, List.length_drop]; omega))]
        have hwlt : write < S := by omega
        by_cases hw1 : write + min count (S - write) = S
        · by_cases hr0 : read = 0
          · -- phase 1 reaches the end but cannot wrap (read == 0): now full
            subst hr0
            simp only [Nat.sub_zero] at hold
            split_ifs at h
            all_goals try (exfalso; omega)
            rw [Prod.mk.injEq] at h
            obtain ⟨rfl, rfl⟩ := h
            simp only [contents, Nat.add_zero, Nat.zero_add, Nat.sub_zero,
              List.drop_zero]
            rw [hold]
            rw [show count - (count - min count (S - write))
                = min count (S - write) by omega]
            rw [show contentsAt
                  (writeSeg buf write (List.take (min count (S - write)) source))
                  S 0 (write + min count (S - write))
                = readSeg
                    (writeSeg buf write
                      (List.take (min count (S - write)) source)) 0 S
                  ++ readSeg
                    (writeSeg buf write
                      (List.take (min count (S - write)) source)) 0 0
                by
              simp only [contentsAt, Nat.sub_zero]
              split_ifs <;> first | rfl | (exfalso; omega)]
            rw [readSeg_zero, List.append_nil]
            rw [readSeg_congr _ 0 0 S (write + min count (S - write)) rfl
              (by first | omega | (simp only [writeSeg_length_formula, List.length_take, List.length_drop]; omega)), readSeg_add]
            congr 1
            · rw [readSeg_writeSeg_before _ _ _ _ _ (by first | omega | (simp only [writeSeg_length_formula, List.length_take, List.length_drop]; omega)) (by first | omega | (simp only [writeSeg_length_formula, List.length_take, List.length_drop]; omega))]
            · rw [Nat.zero_add]
              exact readSeg_writeSeg_self_len _ _ _ _
                (by first | omega | (simp only [writeSeg_length_formula, List.length_take, List.length_drop]; omega)) (by first | omega | (simp only [writeSeg_length_formula, List.length_take, List.length_drop]; omega))
          · -- phase 1 reaches the end and wraps; phase 2 continues at 0
            have hrpos : 0 < read := by omega
            by_cases hfb2 : min (count - min count (S - write)) read = read
            · -- phase 2 reaches the read cursor: now full
              split_ifs at h
              all_goals try (exfalso; omega)
              rw [Prod.mk.injEq] at h
              obtain ⟨rfl, rfl⟩ := h
              simp only [contents, Nat.add_zero, Nat.zero_add, Nat.sub_zero,
                List.drop_zero]
              rw [hold]
              rw [show count - (count - min count (S - write)
                    - min (count - min count (S - write)) read)
                  = min count (S - write)
                    + min (count - min count (S - write)) read by omega,
                List.take_add]
              rw [show contentsAt
                    (writeSeg
                      (writeSeg buf write
                        (List.take (min count (S - write)) source)) 0
                      (List.take (min (count - min count (S - write)) read)
                        (List.drop (min count (S - write)) source)))
                    S read S
                  = readSeg
                      (writeSeg
                        (writeSeg buf write
                          (List.take (min count (S - write)) source)) 0
                        (List.take (min (count - min count (S - write)) read)
                          (List.drop (min count (S - write)) source)))
                      read (S - read)
                    ++ readSeg
                      (writeSeg
                        (writeSeg buf write
                          (List.take (min count (S - write)) source)) 0
                        (List.take (min (count - min count (S - write)) read)
                          (List.drop (min count (S - write)) source)))
                      0 read
                  by
                simp only [contentsAt, Nat.sub_zero]
                split_ifs <;> first | rfl | (exfalso; omega)]
              have hinner : (writeSeg buf write
                  (List.take (min count (S - write)) source)).length
                  = buf.length :=
                writeSeg_length _ _ _ (by first | omega | (simp only [writeSeg_length_formula, List.length_take, List.length_drop]; omega))
              rw [readSeg_congr _ read read (S - read)
                  ((write - read) + min count (S - write)) rfl (by first | omega | (simp only [writeSeg_length_formula, List.length_take, List.length_drop]; omega)),
                readSeg_add]
              rw [readSeg_writeSeg_after _ _ _ _ _
                  (by first | omega | (simp only [writeSeg_length_formula, List.length_take, List.length_drop]; omega))
                  (by first | omega | (simp only [writeSeg_length_formula, List.length_take, List.length_drop]; omega))]
              rw [readSeg_writeSeg_before _ _ _ _ _ (by first | omega | (simp only [writeSeg_length_formula, List.length_take, List.length_drop]; omega)) (by first | omega | (simp only [writeSeg_length_formula, List.length_take, List.length_drop]; omega))]
              rw [readSeg_congr _ (read + (write - read)) write
                  (min count (S - write)) (min count (S - write))
                  (by first | omega | (simp only [writeSeg_length_formula, List.length_take, List.length_drop]; omega)) rfl]
              rw [readSeg_writeSeg_after _ _ _ _ _
                  (by first | omega | (simp only [writeSeg_length_formula, List.length_take, List.length_drop]; omega))
                  (by first | omega | (simp only [writeSeg_length_formula, List.length_take, List.length_drop]; omega))]
              rw [readSeg_writeSeg_self_len _ _ _ _
                  (by first | omega | (simp only [writeSeg_length_formula, List.length_take, List.length_drop]; omega)) (by first | omega | (simp only [writeSeg_length_formula, List.length_take, List.length_drop]; omega))]
              rw [readSeg_writeSeg_self_len _ _ _ _
                  (by first | omega | (simp only [writeSeg_length_formula, List.length_take, List.length_drop]; omega))
                  (by first | omega | (simp only [writeSeg_length_formula, List.length_take, List.length_drop]; omega))]
              rw [List.append_assoc]
            · -- phase 2 stops before the read cursor
              split_ifs at h
              all_goals try (exfalso; omega)
              rw [Prod.mk.injEq] at h
              obtain ⟨rfl, rfl⟩ := h
              simp only [contents, Nat.add_zero, Nat.zero_add, Nat.sub_zero,
                List.drop_zero]
              rw [hold]
              rw [show count - (count - min count (S - write)
                    - min (count - min count (S - write)) read)
                  = min count (S - write)
                    + min (count - min count (S - write)) read by omega,
                List.take_add]
              rw [show contentsAt
                    (writeSeg
                      (writeSeg buf write
                        (List.take (min count (S - write)) source)) 0
                      (List.take (min (count - min count (S - write)) read)
                        (List.drop (min count (S - write)) source)))
                    S read (min (count - min count (S - write)) read)
                  = readSeg
                      (writeSeg
                        (writeSeg buf write
                          (List.take (min count (S - write)) source)) 0
                        (List.take (min (count - min count (S - write)) read)
                          (List.drop (min count (S - write)) source)))
                      read (S - read)
                    ++ readSeg
                      (writeSeg
                        (writeSeg buf write
                          (List.take (min count (S - write)) source)) 0
                        (List.take (min (count - min count (S - write)) read)
                          (List.drop (min count (S - write)) source)))
                      0 (min (count - min count (S - write)) read)
                  by
                simp only [contentsAt, Nat.sub_zero]
                split_ifs <;> first | rfl | (exfalso; omega)]
              have hinner : (writeSeg buf write
                  (List.take (min count (S - write)) source)).length
                  = buf.length :=
                writeSeg_length _ _ _ (by first | omega | (simp only [writeSeg_length_formula, List.length_take, List.length_drop]; omega))
              rw [readSeg_congr _ read read (S - read)
                  ((write - read) + min count (S - write)) rfl (by first | omega | (simp only [writeSeg_length_formula, List.length_take, List.length_drop]; omega)),
                readSeg_add]
              rw [readSeg_writeSeg_after _ _ _ _ _
                  (by first | omega | (simp only [writeSeg_length_formula, List.length_take, List.length_drop]; omega))
                  (by first | omega | (simp only [writeSeg_length_formula, List.length_take, List.length_drop]; omega))]
              rw [readSeg_writeSeg_before _ _ _ _ _ (by first | omega | (simp only [writeSeg_length_formula, List.length_take, List.length_drop]; omega)) (by first | omega | (simp only [writeSeg_length_formula, List.length_take, List.length_drop]; omega))]
              rw [readSeg_congr _ (read + (write - read)) write
                  (min count (S - write)) (min count (S - write))
                  (by first | omega | (simp only [writeSeg_length_formula, List.length_take, List.length_drop]; omega)) rfl]
              rw [readSeg_writeSeg_after _ _ _ _ _
                  (by first | omega | (simp only [writeSeg_length_formula, List.length_take, List.length_drop]; omega))
                  (by first | omega | (simp only [writeSeg_length_formula, List.length_take, List.length_drop]; omega))]
              rw [readSeg_writeSeg_self_len _ _ _ _
                  (by first | omega | (simp only [writeSeg_length_formula, List.length_take, List.length_drop]; omega)) (by first | omega | (simp only [writeSeg_length_formula, List.length_take, List.length_drop]; omega))]
              rw [readSeg_writeSeg_self_len _ _ _ _
                  (by first | omega | (simp only [writeSeg_length_formula, List.length_take, List.length_drop]; omega))
                  (by first | omega | (simp only [writeSeg_length_formula, List.length_take, List.length_drop]; omega))]
              rw [List.append_assoc]
        · -- phase 1 stops before the end of the array
          split_ifs at h
          all_goals try (exfalso; omega)
          rw [Prod.mk.injEq] at h
          obtain ⟨rfl, rfl⟩ := h
          simp only [contents, Nat.add_zero, Nat.zero_add, Nat.sub_zero,
            List.drop_zero]
          rw [hold]
          rw [show count - (count - min count (S - write))
              = min count (S - write) by omega]
          rw [show contentsAt
                (writeSeg buf write (List.take (min count (S - write)) source))
                S read (write + min count (S - write))
              = readSeg
                  (writeSeg buf write
                    (List.take (min count (S - write)) source))
                  read (write + min count (S - write) - read)
              by
            simp only [contentsAt, Nat.sub_zero]
            split_ifs <;> first | rfl | (exfalso; omega)]
          rw [readSeg_congr _ read read
              (write + min count (S - write) - read)
              ((write - read) + min count (S - write)) rfl (by first | omega | (simp only [writeSeg_length_formula, List.length_take, List.length_drop]; omega)),
            readSeg_add]
          congr 1
          · rw [readSeg_writeSeg_before _ _ _ _ _ (by first | omega | (simp only [writeSeg_length_formula, List.length_take, List.length_drop]; omega)) (by first | omega | (simp only [writeSeg_length_formula, List.length_take, List.length_drop]; omega))]
          · rw [readSeg_congr _ (read + (write - read)) write
                (min count (S - write)) (min count (S - write))
                (by first | omega | (simp only [writeSeg_length_formula, List.length_take, List.length_drop]; omega)) rfl]
            exact readSeg_writeSeg_self_len _ _ _ _
              (by first | omega | (simp only [writeSeg_length_formula, List.length_take, List.length_drop]; omega)) (by first | omega | (simp only [writeSeg_length_formula, List.length_take, List.length_drop]; omega))
      · -- wrapped data: phase 1 is skipped, phase 2 fills up to read
        have hgt : write < read := by omega
        have hold : contentsAt buf S read write
            = readSeg buf read (S - read) ++ readSeg buf 0 write := by
          simp only [contentsAt]
          rw [if_neg hempty, if_neg hnfull, if_pos hgt]
        by_cases hfb : write + min count (read - write) = read
        · -- the write reaches the read cursor: now full
          split_ifs at h
          all_goals try (exfalso; omega)
          rw [Prod.mk.injEq] at h
          obtain ⟨rfl, rfl⟩ := h
          simp only [contents, Nat.add_zero, Nat.zero_add, Nat.sub_zero,
            List.drop_zero]
          rw [hold]
          rw [show count - (count - min count (read - write))
              = min count (read - write) by omega]
          rw [show contentsAt
                (writeSeg buf write
                  (List.take (min count (read - write)) source))
                S read S
              = readSeg
                  (writeSeg buf write
                    (List.take (min count (read - write)) source))
                  read (S - read)
                ++ readSeg
                  (writeSeg buf write
                    (List.take (min count (read - write)) source))
                  0 read
              by
            simp only [contentsAt, Nat.sub_zero]
            split_ifs <;> first | rfl | (exfalso; omega)]
          rw [readSeg_writeSeg_after _ _ _ _ _
              (by first | omega | (simp only [writeSeg_length_formula, List.length_take, List.length_drop]; omega)) (by first | omega | (simp only [writeSeg_length_formula, List.length_take, List.length_drop]; omega))]
          rw [readSeg_congr _ 0 0 read (write + min count (read - write)) rfl
              (by first | omega | (simp only [writeSeg_length_formula, List.length_take, List.length_drop]; omega)), readSeg_add]
          rw [readSeg_writeSeg_before _ _ _ _ _ (by first | omega | (simp only [writeSeg_length_formula, List.length_take, List.length_drop]; omega)) (by first | omega | (simp only [writeSeg_length_formula, List.length_take, List.length_drop]; omega))]
          rw [readSeg_congr _ (0 + write) write
              (min count (read - write)) (min count (read - write))
              (by first | omega | (simp only [writeSeg_length_formula, List.length_take, List.length_drop]; omega)) rfl]
          rw [readSeg_writeSeg_self_len _ _ _ _
              (by first | omega | (simp only [writeSeg_length_formula, List.length_take, List.length_drop]; omega)) (by first | omega | (simp only [writeSeg_length_formula, List.length_take, List.length_drop]; omega))]
          rw [List.append_assoc]
        · -- the write stops before the read cursor
          split_ifs at h
          all_goals try (exfalso; omega)
          rw [Prod.mk.injEq] at h
          obtain ⟨rfl, rfl⟩ := h
          simp only [contents, Nat.add_zero, Nat.zero_add, Nat.sub_zero,
            List.drop_zero]
          rw [hold]
          rw [show count - (count - min count (read - write))
              = min count (read - write) by omega]
          rw [show contentsAt
                (writeSeg buf write
                  (List.take (min count (read - write)) source))
                S read (write + min count (read - write))
              = readSeg
                  (writeSeg buf write
                    (List.take (min count (read - write)) source))
                  read (S - read)
                ++ readSeg
                  (writeSeg buf write
                    (List.take (min count (read - write)) source))
                  0 (write + min count (read - write))
              by
            simp only [contentsAt, Nat.sub_zero]
            split_ifs <;> first | rfl | (exfalso; omega)]
          rw [readSeg_writeSeg_after _ _ _ _ _
              (by first | omega | (simp only [writeSeg_length_formula, List.length_take, List.length_drop]; omega)) (by first | omega | (simp only [writeSeg_length_formula, List.length_take, List.length_drop]; omega))]
          rw [readSeg_add]
          rw [readSeg_writeSeg_before _ _ _ _ _ (by first | omega | (simp only [writeSeg_length_formula, List.length_take, List.length_drop]; omega)) (by first | omega | (simp only [writeSeg_length_formula, List.length_take, List.length_drop]; omega))]
          rw [readSeg_congr _ (0 + write) write
              (min count (read - write)) (min count (read - write))
              (by first | omega | (simp only [writeSeg_length_formula, List.length_take, List.length_drop]; omega)) rfl]
          rw [readSeg_writeSeg_self_len _ _ _ _
              (by first | omega | (simp only [writeSeg_length_formula, List.length_take, List.length_drop]; omega)) (by first | omega | (simp only [writeSeg_length_formula, List.length_take, List.length_drop]; omega))]
          rw [List.append_assoc]

/-- `_readBytes` invoked with the scratch cursors already at the empty
encoding (`read = size`, `write = 0`) transfers nothing and leaves the
cursors alone, whatever the member `_read` is. -/
theorem readBytesCore_at_empty (buffer : List Nat) (S memRead count : Nat)
    (hS : 0 < S) :
    readBytesCore buffer S memRead count S 0 = (0, [], S, 0) := by
  by_cases hg : count = 0 ∨ memRead = S
  · rw [readBytesCore, if_pos hg]
  · simp only [readBytesCore]
    rw [if_neg hg]
    split_ifs <;> first
      | (exfalso; omega)
      | (rw [Prod.mk.injEq, Prod.mk.injEq, Prod.mk.injEq]
         refine ⟨by omega, by rw [show min count (S - S) = 0 by omega, readSeg_zero], by omega, by omega⟩)

/-- Where the cursors land after `_readBytes` transfers `n` bytes: they
advance by `n` with wraparound, collapsing to the empty encoding when the
queue is drained (and the full sentinel on `write` is replaced by the
actual position). -/
def advCursors (S read write n : Nat) : Nat × Nat :=
  if n = 0 then (read, write)
  else
    let w0 := if write = S then read else write
    if n = readableAt S read write then (S, 0)
    else (if read + n < S then read + n else read + n - S, w0)

set_option maxHeartbeats 1600000 in
/-- The final cursors of `_readBytes` are determined by the starting
cursors and the transferred count. -/
theorem readBytesCore_adv (buffer : List Nat) (S memRead count read write : Nat)
    (hS : 0 < S) (hok : CursorsOK S read write)
    (hmem : memRead = S ↔ read = S)
    {n : Nat} {out : List Nat} {read' write' : Nat}
    (h : readBytesCore buffer S memRead count read write = (n, out, read', write')) :
    (read', write') = advCursors S read write n := by
  obtain ⟨hr, hw, hne⟩ := hok
  by_cases hrs : read = S
  · have hm : memRead = S := hmem.mpr hrs
    have hw0 : write = 0 := by rcases hr with hx | hx; omega; exact hx.2
    rw [readBytesCore] at h
    rw [if_pos (Or.inr hm), Prod.mk.injEq, Prod.mk.injEq, Prod.mk.injEq] at h
    obtain ⟨rfl, rfl, rfl, rfl⟩ := h
    simp [advCursors]
  · have hm : ¬ memRead = S := fun hx => hrs (hmem.mp hx)
    by_cases hc : count = 0
    · rw [readBytesCore] at h
      rw [if_pos (Or.inl hc), Prod.mk.injEq, Prod.mk.injEq, Prod.mk.injEq] at h
      obtain ⟨rfl, rfl, rfl, rfl⟩ := h
      simp [advCursors]
    · simp only [readBytesCore] at h
      rw [if_neg (by tauto)] at h
      split_ifs at h <;>
        (rw [Prod.mk.injEq, Prod.mk.injEq, Prod.mk.injEq] at h
         obtain ⟨rfl, rfl, rfl, rfl⟩ := h
         simp only [advCursors, readableAt]
         split_ifs <;> (rw [Prod.mk.injEq]; exact ⟨by omega, by omega⟩))

/-- Re-running `_readBytes` with the already-capped count reproduces the
same transfer, the same bytes and the same final cursors. -/
theorem readBytesCore_again (buffer : List Nat)
    (S memRead count read write : Nat)
    (hS : 0 < S) (hlen : buffer.length = S) (hok : CursorsOK S read write)
    (hmem : memRead = S ↔ read = S)
    {n : Nat} {out : List Nat} {read' write' : Nat}
    (h : readBytesCore buffer S memRead count read write = (n, out, read', write')) :
    readBytesCore buffer S memRead n read write = (n, out, read', write') := by
  obtain ⟨n2, out2, r2, w2, h2⟩ :
      ∃ n2 out2 r2 w2,
        readBytesCore buffer S memRead n read write = (n2, out2, r2, w2) :=
    ⟨_, _, _, _, rfl⟩
  obtain ⟨hn, -, -, -⟩ := readBytesCore_arith buffer S memRead count read write hS hok hmem h
  obtain ⟨hn2, -, -, -⟩ := readBytesCore_arith buffer S memRead n read write hS hok hmem h2
  have hnn : n2 = n := by omega
  subst hnn
  have hadv := readBytesCore_adv buffer S memRead count read write hS hok hmem h
  have hadv2 := readBytesCore_adv buffer S memRead n2 read write hS hok hmem h2
  obtain ⟨ho, -⟩ := readBytesCore_contents buffer S memRead count read write hS hlen hok hmem h
  obtain ⟨ho2, -⟩ := readBytesCore_contents buffer S memRead n2 read write hS hlen hok hmem h2
  rw [h2]
  rw [Prod.mk.injEq, Prod.mk.injEq, Prod.mk.injEq]
  have hcur : (r2, w2) = (read', write') := by rw [hadv2, ← hadv]
  rw [Prod.mk.injEq] at hcur
  exact ⟨rfl, by rw [ho2, ho], hcur.1, hcur.2⟩

/-- `_readBytes` called while the member `_read` carries the empty
sentinel transfers nothing (the `isEmpty()` guard). -/
theorem readBytesCore_memEmpty (buffer : List Nat)
    (S memRead count read write : Nat) (hm : memRead = S) :
    readBytesCore buffer S memRead count read write = (0, [], read, write) := by
  rw [readBytesCore, if_pos (Or.inr hm)]

/-! ## The null-destination path

`readBytesDest` is the full translation of `_readBytes`; the two lemmas
below reduce its two instantiations to `readBytesCore` so that the rest of
the development can reason uniformly, with `nullDestWild` isolating the
executions that die in the wild `memcpy`. -/

set_option maxHeartbeats 1600000 in
/-- With a non-null destination `_readBytes` is total and agrees with its
specialization `readBytesCore`: both `memcpy` guards pass and the pointer
advance at RingBuffer.cpp:382 lands inside the destination buffer. -/
theorem readBytesDest_false (buffer : List Nat)
    (size memRead count read write : Nat) :
    readBytesDest buffer size memRead false count read write =
      some (readBytesCore buffer size memRead count read write) := by
  simp only [readBytesDest, readBytesCore, eq_self_iff_true, and_true,
    Bool.false_eq_true, false_and, and_false, true_and]
  split_ifs <;> first | rfl | tauto

set_option maxHeartbeats 1600000 in
/-- `discardBytes` in terms of `readBytes`: unless the discard transfers
phase-1 bytes and crosses into phase 2 (`nullDestWild` — the `memcpy`
through the pointer advanced past null at RingBuffer.cpp:382), it returns
the count and final state of the corresponding `readBytes`. -/
theorem discardBytes_eq (rb : RingBuffer) (count : Nat) :
    discardBytes rb count =
      if nullDestWild rb.size rb.read count rb.read rb.write then none
      else some ((readBytes rb count).1, (readBytes rb count).2.2) := by
  simp only [discardBytes, readBytes, readBytesDest, readBytesCore, nullDestWild]
  by_cases h0 : count = 0 ∨ rb.read = rb.size
  · rw [if_pos h0, if_pos h0, if_pos h0]
    rfl
  · rw [if_neg h0, if_neg h0, if_neg h0]
    simp only [eq_self_iff_true, and_true, true_and, decide_eq_true_eq]
    split_ifs <;> rfl

/-! ## Behaviour of the public operations -/

set_option maxHeartbeats 800000 in
/-- Full behaviour of `writeBytes` on a valid state with a large-enough
source: the returned count is `min count writable`, the state stays valid,
counts shift by the returned count, and the accepted bytes are appended to
the queue. -/
theorem writeBytes_spec (rb : RingBuffer) (source : List Nat) (count : Nat)
    (hv : Valid rb) (hsrc : count ≤ source.length) :
    (writeBytes rb source count).1 = min count (getWritableByteCount rb) ∧
    Valid (writeBytes rb source count).2 ∧
    (writeBytes rb source count).2.size = rb.size ∧
    getReadableByteCount (writeBytes rb source count).2
      = getReadableByteCount rb + (writeBytes rb source count).1 ∧
    getWritableByteCount (writeBytes rb source count).2
      = getWritableByteCount rb - (writeBytes rb source count).1 ∧
    contents (writeBytes rb source count).2
      = contents rb ++ source.take (writeBytes rb source count).1 := by
  obtain ⟨n, rb', hEq⟩ : ∃ n rb', writeBytes rb source count = (n, rb') :=
    ⟨_, _, rfl⟩
  obtain ⟨hn, hok, hsz, hbl, hra, hwa⟩ := writeBytes_arith rb source count hv hEq
  have hcont := writeBytes_contents rb source count hv hsrc hEq
  rw [hEq]
  refine ⟨?_, ?_, hsz, ?_, ?_, hcont⟩
  · rw [hn, getWritableByteCount_eq]
  · rw [valid_iff]
    refine ⟨?_, ?_, ?_⟩
    · rw [hbl, hsz]; exact hv.1
    · rw [hsz]; exact hv.2.1
    · rw [hsz]; exact hok
  · rw [getReadableByteCount_eq, getReadableByteCount_eq, hsz, hra]
  · rw [getWritableByteCount_eq, getWritableByteCount_eq, hsz, hwa]

set_option maxHeartbeats 800000 in
/-- Full behaviour of `readBytes` and `peekBytes` on a valid state: both
cap the count at `readableCount`; a read returns the first `n` queued
bytes and removes them; a peek returns the same bytes without touching the
member cursors.  (`discardBytes` is related to `readBytes` separately, by
`discardBytes_eq`: its cursor motion coincides whenever it escapes the
wild `memcpy`.) -/
theorem readBytes_spec (rb : RingBuffer) (count : Nat) (hv : Valid rb) :
    (readBytes rb count).1 = min count (getReadableByteCount rb) ∧
    Valid (readBytes rb count).2.2 ∧
    (readBytes rb count).2.2.size = rb.size ∧
    (readBytes rb count).2.2.buffer = rb.buffer ∧
    (readBytes rb count).2.1 = (contents rb).take (readBytes rb count).1 ∧
    contents (readBytes rb count).2.2
      = (contents rb).drop (readBytes rb count).1 ∧
    getReadableByteCount (readBytes rb count).2.2
      = getReadableByteCount rb - (readBytes rb count).1 ∧
    getWritableByteCount (readBytes rb count).2.2
      = getWritableByteCount rb + (readBytes rb count).1 ∧
    peekBytes rb count = ((readBytes rb count).1, (readBytes rb count).2.1) := by
  obtain ⟨n, out, r', w', hcore⟩ :
      ∃ n out r' w',
        readBytesCore rb.buffer rb.size rb.read count rb.read rb.write
          = (n, out, r', w') := ⟨_, _, _, _, rfl⟩
  have hok0 : CursorsOK rb.size rb.read rb.write := ((valid_iff rb).mp hv).2.2
  obtain ⟨hn, hok, hra, hwa⟩ := readBytesCore_arith rb.buffer rb.size rb.read
    count rb.read rb.write hv.2.1 hok0 Iff.rfl hcore
  obtain ⟨hout, hcont⟩ := readBytesCore_contents rb.buffer rb.size rb.read
    count rb.read rb.write hv.2.1 hv.1 hok0 Iff.rfl hcore
  have hrw : readBytes rb count = (n, out, ⟨rb.buffer, rb.size, r', w'⟩) := by
    simp only [readBytes, hcore]
  have hp : peekBytes rb count = (n, out) := by
    simp only [peekBytes, hcore]
  rw [hrw, hp]
  dsimp only
  refine ⟨?_, ?_, rfl, rfl, ?_, ?_, ?_, ?_, rfl⟩
  · rw [hn, getReadableByteCount_eq]
  · rw [valid_iff]
    exact ⟨hv.1, hv.2.1, hok⟩
  · rw [hout, contents]
  · rw [contents, contents]
    dsimp only
    exact hcont
  · rw [getReadableByteCount_eq, getReadableByteCount_eq]
    dsimp only
    rw [hra]
  · rw [getWritableByteCount_eq, getWritableByteCount_eq]
    dsimp only
    rw [hwa]

/-! ## Reachable states -/

/-- States reachable from construction through the public mutating
operations (the peeks operate on scratch cursors and never change the
member state).  A discard contributes a state only when it returns — a
discard that dies in the wild `memcpy` (`discardBytes … = none`) yields no
successor state. -/
inductive Reachable : RingBuffer → Prop where
  | init (buffer : List Nat) (size : Nat) (hlen : buffer.length = size)
      (hpos : 0 < size) : Reachable (mkRingBuffer buffer size)
  | write (rb : RingBuffer) (source : List Nat) (count : Nat)
      (hrb : Reachable rb) : Reachable (writeBytes rb source count).2
  | read (rb : RingBuffer) (count : Nat) (hrb : Reachable rb) :
      Reachable (readBytes rb count).2.2
  | discard (rb : RingBuffer) (count n : Nat) (rb' : RingBuffer)
      (hd : discardBytes rb count = some (n, rb')) (hrb : Reachable rb) :
      Reachable rb'
  | clearOp (rb : RingBuffer) (hrb : Reachable rb) : Reachable (clear rb)

/-- Every reachable state satisfies `_assertValid`. -/
theorem reachable_valid (rb : RingBuffer) (h : Reachable rb) : Valid rb := by
  induction h with
  | init buffer size hlen hpos =>
    refine ⟨hlen, hpos, ?_, ?_, ?_⟩ <;> (simp only [mkRingBuffer]; first | omega | tauto)
  | write rb source count hrb ih =>
    obtain ⟨n, rb', hEq⟩ : ∃ n rb', writeBytes rb source count = (n, rb') :=
      ⟨_, _, rfl⟩
    obtain ⟨-, hok, hsz, hbl, -, -⟩ := writeBytes_arith rb source count ih hEq
    rw [hEq]
    rw [valid_iff]
    refine ⟨?_, ?_, ?_⟩
    · rw [hbl, hsz]; exact ih.1
    · rw [hsz]; exact ih.2.1
    · rw [hsz]; exact hok
  | read rb count hrb ih =>
    exact (readBytes_spec rb count ih).2.1
  | discard rb count n rb' hd hrb ih =>
    rw [discardBytes_eq] at hd
    by_cases hw : nullDestWild rb.size rb.read count rb.read rb.write = true
    · rw [if_pos hw] at hd
      exact Option.noConfusion hd
    · rw [if_neg hw] at hd
      rw [Option.some.injEq, Prod.mk.injEq] at hd
      rw [← hd.2]
      exact (readBytes_spec rb count ih).2.1
  | clearOp rb hrb ih =>
    have hS := ih.2.1
    refine ⟨ih.1, ih.2.1, ?_, ?_, ?_⟩ <;> (simp only [clear]; first | omega | tauto)

/-! ## Trace semantics for the FIFO property -/

/-- One public call in an interleaving: the arguments of a `writeBytes`,
`readBytes`, `discardBytes`, `peekBytes` or `peekBytesAt` call. -/
inductive Op where
  | write (source : List Nat) (count : Nat)
  | read (count : Nat)
  | discard (count : Nat)
  | peek (count : Nat)
  | peekAt (count offset : Nat)
  deriving Repr, DecidableEq

/-- Runs a sequence of calls.  Returns the final state, the bytes accepted
by `writeBytes` calls (counted by their return values, in order) and the
bytes removed by `readBytes`/`discardBytes` calls (in order) — or `none`
as soon as a call dies in the wild `memcpy` of the unguarded pointer
advance (RingBuffer.cpp:382): a wrap-crossing `discardBytes`, or a
`peekBytesAt` whose null-destination offset simulation crosses the wrap.
A succeeding discard removes the bytes the corresponding read would have
copied (the cursor motion is shared, by `discardBytes_eq`); peeks touch no
member state. -/
def runOps (rb : RingBuffer) : List Op → Option (RingBuffer × List Nat × List Nat)
  | [] => some (rb, [], [])
  | Op.write source count :: ops =>
    let res := writeBytes rb source count
    match runOps res.2 ops with
    | none => none
    | some rest => some (rest.1, source.take res.1 ++ rest.2.1, rest.2.2)
  | Op.read count :: ops =>
    let res := readBytes rb count
    match runOps res.2.2 ops with
    | none => none
    | some rest => some (rest.1, rest.2.1, res.2.1 ++ rest.2.2)
  | Op.discard count :: ops =>
    match discardBytes rb count with
    | none => none
    | some res =>
      match runOps res.2 ops with
      | none => none
      | some rest => some (rest.1, rest.2.1, (readBytes rb count).2.1 ++ rest.2.2)
  | Op.peek _ :: ops => runOps rb ops
  | Op.peekAt count offset :: ops =>
    match peekBytesAt rb count offset with
    | none => none
    | some _ => runOps rb ops

/-- A call sequence is wellformed when every `writeBytes` call supplies at
least `count` source bytes (the C contract of `memcpy` from the caller's
buffer). -/
def OpsWF : List Op → Prop
  | [] => True
  | Op.write source count :: ops => count ≤ source.length ∧ OpsWF ops
  | _ :: ops => OpsWF ops

/-- The run invariant, on traces free of undefined behaviour: whenever a
call sequence completes (`runOps … = some out`), the initial queue
followed by all accepted bytes equals the removed bytes followed by the
final queue.  The only traces excluded are those that die in the wild
`memcpy` of the unguarded pointer advance (RingBuffer.cpp:382). -/
theorem runOps_fifo (ops : List Op) (rb : RingBuffer) (hv : Valid rb)
    (hwf : OpsWF ops) (out : RingBuffer × List Nat × List Nat)
    (hrun : runOps rb ops = some out) :
    Valid out.1 ∧ contents rb ++ out.2.1 = out.2.2 ++ contents out.1 := by
  induction ops generalizing rb out with
  | nil =>
    simp only [runOps, Option.some.injEq] at hrun
    subst hrun
    exact ⟨hv, by simp⟩
  | cons op ops ih =>
    cases op with
    | write source count =>
      obtain ⟨hwf1, hwf2⟩ := hwf
      obtain ⟨-, hv', -, -, -, hcont⟩ := writeBytes_spec rb source count hv hwf1
      simp only [runOps] at hrun
      cases hrest : runOps (writeBytes rb source count).2 ops with
      | none =>
        rw [hrest] at hrun
        exact Option.noConfusion hrun
      | some rest =>
        obtain ⟨ihv, iheq⟩ := ih (writeBytes rb source count).2 hv' hwf2 rest hrest
        simp only [hrest, Option.some.injEq] at hrun
        subst hrun
        refine ⟨ihv, ?_⟩
        dsimp only
        rw [← List.append_assoc, ← hcont, iheq]
    | read count =>
      obtain ⟨-, hv', -, -, hout, hcont, -, -, -⟩ := readBytes_spec rb count hv
      simp only [runOps] at hrun
      cases hrest : runOps (readBytes rb count).2.2 ops with
      | none =>
        rw [hrest] at hrun
        exact Option.noConfusion hrun
      | some rest =>
        obtain ⟨ihv, iheq⟩ := ih (readBytes rb count).2.2 hv' hwf rest hrest
        simp only [hrest, Option.some.injEq] at hrun
        subst hrun
        refine ⟨ihv, ?_⟩
        dsimp only
        rw [hout, List.append_assoc]
        calc contents rb ++ rest.2.1
            = ((contents rb).take (readBytes rb count).1
                ++ (contents rb).drop (readBytes rb count).1) ++ rest.2.1 := by
              rw [List.take_append_drop]
          _ = (contents rb).take (readBytes rb count).1
              ++ (contents (readBytes rb count).2.2 ++ rest.2.1) := by
              rw [hcont, List.append_assoc]
          _ = (contents rb).take (readBytes rb count).1
              ++ (rest.2.2 ++ contents rest.1) := by
              rw [iheq]
    | discard count =>
      obtain ⟨-, hv', -, -, hout, hcont, -, -, -⟩ := readBytes_spec rb count hv
      simp only [runOps] at hrun
      rw [discardBytes_eq] at hrun
      by_cases hwild : nullDestWild rb.size rb.read count rb.read rb.write = true
      · rw [if_pos hwild] at hrun
        exact Option.noConfusion hrun
      · rw [if_neg hwild] at hrun
        dsimp only at hrun
        cases hrest : runOps (readBytes rb count).2.2 ops with
        | none =>
          rw [hrest] at hrun
          exact Option.noConfusion hrun
        | some rest =>
          obtain ⟨ihv, iheq⟩ := ih (readBytes rb count).2.2 hv' hwf rest hrest
          simp only [hrest, Option.some.injEq] at hrun
          subst hrun
          refine ⟨ihv, ?_⟩
          dsimp only
          rw [hout, List.append_assoc]
          calc contents rb ++ rest.2.1
              = ((contents rb).take (readBytes rb count).1
                  ++ (contents rb).drop (readBytes rb count).1) ++ rest.2.1 := by
                rw [List.take_append_drop]
            _ = (contents rb).take (readBytes rb count).1
                ++ (contents (readBytes rb count).2.2 ++ rest.2.1) := by
                rw [hcont, List.append_assoc]
            _ = (contents rb).take (readBytes rb count).1
                ++ (rest.2.2 ++ contents rest.1) := by
                rw [iheq]
    | peek count =>
      simp only [runOps] at hrun
      exact ih rb hv hwf out hrun
    | peekAt count offset =>
      simp only [runOps] at hrun
      cases hpk : peekBytesAt rb count offset with
      | none =>
        rw [hpk] at hrun
        exact Option.noConfusion hrun
      | some pk =>
        rw [hpk] at hrun
        exact ih rb hv hwf out hrun

/-! ## A reachable wrap-crossing state

The smallest public-API trace that exhibits the unguarded pointer advance:
on capacity 3, write 3 bytes, read 2, write 1 more.  The resulting state
has `read = 2 > write = 1` — two queued bytes `[3, 4]` wrapping across the
end of the buffer — so any null-destination `_readBytes` that transfers
the byte at index 2 in phase 1 continues into phase 2 with the advanced
(now non-null, invalid) pointer and calls `memcpy` through it. -/

def wrappedState : RingBuffer :=
  (writeBytes (readBytes (writeBytes (mkRingBuffer [0, 0, 0] 3)
    [1, 2, 3] 3).2 2).2.2 [4] 1).2

/-- The wrap-crossing state is reachable through the public API. -/
theorem wrappedState_reachable : Reachable wrappedState := by
  unfold wrappedState
  exact Reachable.write _ [4] 1
    (Reachable.read _ 2
      (Reachable.write _ [1, 2, 3] 3
        (Reachable.init [0, 0, 0] 3 (by decide) (by decide))))

/-! ## The claims -/

/-- C1 (code bug): the claim demands FIFO content fidelity for every
interleaving of the five public calls, but the interleaving
`writeBytes [1,2,3] 3; readBytes 2; writeBytes [4] 1; discardBytes 2` on a
capacity-3 buffer does not complete: the discard reaches phase 2 of
`_readBytes` with its null destination advanced by the unguarded
`destination = static_cast<char *>(destination) + n;`
(RingBuffer.cpp:382), so the phase-2 `destination != nullptr` check
(RingBuffer.cpp:413) passes and `memcpy` writes through the near-null
pointer — undefined behaviour instead of a FIFO-faithful removal.
(`runOps_fifo` shows the FIFO law does hold on every trace that avoids
this wild `memcpy`.) -/
theorem C1_code_bug :
    runOps (mkRingBuffer [0, 0, 0] 3)
      [Op.write [1, 2, 3] 3, Op.read 2, Op.write [4] 1, Op.discard 2]
      = none := by
  rfl

/-- C2: dual-sentinel cursor invariant — immediately after construction and
after every public operation (every reachable state; the peeks leave the
member state untouched by construction), the state satisfies
`readCursor < capacity` or (`readCursor = capacity` and `writeCursor = 0`),
`writeCursor ≤ capacity` with `writeCursor = capacity → readCursor ≠
capacity`, and `readCursor ≠ writeCursor`. -/
theorem C2_cursor_invariant (rb : RingBuffer) (h : Reachable rb) :
    (rb.read < rb.size ∨ (rb.read = rb.size ∧ rb.write = 0)) ∧
    rb.write ≤ rb.size ∧
    (rb.write = rb.size → rb.read ≠ rb.size) ∧
    rb.read ≠ rb.write := by
  obtain ⟨-, hS, hr, hw, hne⟩ := reachable_valid rb h
  exact ⟨hr, hw, fun hfull => by omega, hne⟩

/-- C2 witness: the invariant at a freshly constructed capacity-1 buffer. -/
theorem C2_witness :
    ((mkRingBuffer [0] 1).read < (mkRingBuffer [0] 1).size ∨
      ((mkRingBuffer [0] 1).read = (mkRingBuffer [0] 1).size ∧
        (mkRingBuffer [0] 1).write = 0)) ∧
    (mkRingBuffer [0] 1).write ≤ (mkRingBuffer [0] 1).size ∧
    ((mkRingBuffer [0] 1).write = (mkRingBuffer [0] 1).size →
      (mkRingBuffer [0] 1).read ≠ (mkRingBuffer [0] 1).size) ∧
    (mkRingBuffer [0] 1).read ≠ (mkRingBuffer [0] 1).write :=
  C2_cursor_invariant (mkRingBuffer [0] 1)
    (Reachable.init [0] 1 (by decide) (by decide))

/-- C3: write capping — on every reachable state with `writableCount = w`,
`writeBytes` with a valid source of at least `count` bytes returns exactly
`min count w`; afterwards `writableCount` has decreased and
`readableCount` increased by exactly that amount, and the queue is the old
queue with exactly the accepted bytes appended (unread data is never
overwritten, and no byte beyond the returned count is written). -/
theorem C3_write_capping (rb : RingBuffer) (source : List Nat) (count : Nat)
    (h : Reachable rb) (hsrc : count ≤ source.length) :
    (writeBytes rb source count).1 = min count (getWritableByteCount rb) ∧
    getWritableByteCount (writeBytes rb source count).2
      = getWritableByteCount rb - min count (getWritableByteCount rb) ∧
    getReadableByteCount (writeBytes rb source count).2
      = getReadableByteCount rb + min count (getWritableByteCount rb) ∧
    contents (writeBytes rb source count).2
      = contents rb ++ source.take (min count (getWritableByteCount rb)) := by
  obtain ⟨hn, -, -, hra, hwa, hcont⟩ :=
    writeBytes_spec rb source count (reachable_valid rb h) hsrc
  refine ⟨hn, ?_, ?_, ?_⟩ <;> rw [← hn]
  · exact hwa
  · exact hra
  · exact hcont

/-- C3 witness: writing 5 bytes into a capacity-2 buffer accepts 2. -/
theorem C3_witness :
    (writeBytes (mkRingBuffer [0, 0] 2) [9, 8, 7, 6, 5] 5).1
        = min 5 (getWritableByteCount (mkRingBuffer [0, 0] 2)) ∧
    getWritableByteCount (writeBytes (mkRingBuffer [0, 0] 2) [9, 8, 7, 6, 5] 5).2
      = getWritableByteCount (mkRingBuffer [0, 0] 2)
          - min 5 (getWritableByteCount (mkRingBuffer [0, 0] 2)) ∧
    getReadableByteCount (writeBytes (mkRingBuffer [0, 0] 2) [9, 8, 7, 6, 5] 5).2
      = getReadableByteCount (mkRingBuffer [0, 0] 2)
          + min 5 (getWritableByteCount (mkRingBuffer [0, 0] 2)) ∧
    contents (writeBytes (mkRingBuffer [0, 0] 2) [9, 8, 7, 6, 5] 5).2
      = contents (mkRingBuffer [0, 0] 2)
          ++ [9, 8, 7, 6, 5].take (min 5 (getWritableByteCount (mkRingBuffer [0, 0] 2))) :=
  C3_write_capping (mkRingBuffer [0, 0] 2) [9, 8, 7, 6, 5] 5
    (Reachable.init [0, 0] 2 (by decide) (by decide)) (by decide)

/-- C4 (code bug): the claim says that on every reachable state
`readBytes`, `discardBytes` and `peekBytes` each return `min count
readable` and that a discard performs the same cursor motion as a read.
On the reachable wrap-crossing state (`read = 2 > write = 1`, two queued
bytes), `readBytes 2` and `peekBytes 2` do return `min 2 2 = 2`, but
`discardBytes 2` returns nothing: its first phase moves one byte and
advances the null destination (RingBuffer.cpp:382), and its second phase
passes the null check and calls `memcpy` through the resulting wild
pointer — undefined behaviour, not the claimed count and cursor motion. -/
theorem C4_code_bug :
    Reachable wrappedState ∧
    (readBytes wrappedState 2).1 = min 2 (getReadableByteCount wrappedState) ∧
    (peekBytes wrappedState 2).1 = min 2 (getReadableByteCount wrappedState) ∧
    discardBytes wrappedState 2 = none :=
  ⟨wrappedState_reachable, by decide, by decide, rfl⟩

/-- C5 (code bug): the claim says that on every reachable state with
`offset ≤ readableCount`, `peekBytesAt` returns
`min count (readable - offset)` and copies the queued bytes at
`[offset, offset + returned)`.  On the reachable wrap-crossing state
(`readable = 2`), `peekBytesAt` with `offset = 2` never gets to its gate:
the offset simulation passes `nullptr` to `_readBytes`
(RingBuffer.h:213), transfers one byte in phase 1, advances the null
pointer (RingBuffer.cpp:382), and phase 2's `memcpy` runs through the
wild pointer — undefined behaviour, not the claimed clean return of
`min 1 (2 - 2) = 0`. -/
theorem C5_code_bug :
    Reachable wrappedState ∧
    2 ≤ getReadableByteCount wrappedState ∧
    peekBytesAt wrappedState 1 2 = none :=
  ⟨wrappedState_reachable, by decide, rfl⟩

/-- C6: full/empty exclusivity and conservation — in every reachable state
`isFull` and `isEmpty` are never simultaneously true, and
`readableCount + writableCount = capacity`. -/
theorem C6_full_empty_exclusive (rb : RingBuffer) (h : Reachable rb) :
    ¬(isFull rb = true ∧ isEmpty rb = true) ∧
    getReadableByteCount rb + getWritableByteCount rb = rb.size := by
  obtain ⟨-, hS, hr, hw, hne⟩ := reachable_valid rb h
  constructor
  · rintro ⟨hf, he⟩
    simp only [isFull, isEmpty, beq_iff_eq] at hf he
    omega
  · rw [getReadableByteCount_eq, getWritableByteCount_eq]
    simp only [readableAt, writableAt]
    split_ifs <;> omega

/-- C6 witness: exclusivity at a freshly constructed capacity-2 buffer. -/
theorem C6_witness :
    ¬(isFull (mkRingBuffer [0, 0] 2) = true ∧
        isEmpty (mkRingBuffer [0, 0] 2) = true) ∧
    getReadableByteCount (mkRingBuffer [0, 0] 2)
        + getWritableByteCount (mkRingBuffer [0, 0] 2)
      = (mkRingBuffer [0, 0] 2).size :=
  C6_full_empty_exclusive (mkRingBuffer [0, 0] 2)
    (Reachable.init [0, 0] 2 (by decide) (by decide))

/-- C7 counterexample: the claim says a null destination with `count = 0`
violates no precondition — that the assertion cannot fire and the error
branch is unreachable.  In the code, `readBytes`, `peekBytes` and
`peekBytesAt` each begin with an unconditional
`assert(destination != nullptr)`: with a null destination and `count = 0`
the assert condition is false, i.e. the assertion fires. -/
theorem C7_counterexample :
    readBytesDestAssert true 0 = false ∧
    peekBytesDestAssert true 0 = false ∧
    peekBytesAtDestAssert true 0 0 = false := by
  decide

/-- C7 (amended): the destination-pointer assertions of `readBytes`,
`peekBytes` and `peekBytesAt` inspect only the pointer, so a null
destination fires the assertion at every count including zero (the
contract is not limited to non-zero counts); a non-null destination always
passes.  When the assertions are compiled out, a zero-count `readBytes` or
`peekBytes` returns 0 with no state change and never touches the
destination.  (No such guarantee holds for a zero-count `peekBytesAt`:
its null-destination offset simulation runs before the count is ever
consulted, and a wrap-crossing offset dies in the wild `memcpy` — see the
C9 analysis.) -/
theorem C7_null_dest_contract (count offset : Nat) (rb : RingBuffer) :
    (readBytesDestAssert true count = false ∧
     peekBytesDestAssert true count = false ∧
     peekBytesAtDestAssert true count offset = false) ∧
    (readBytesDestAssert false count = true ∧
     peekBytesDestAssert false count = true ∧
     peekBytesAtDestAssert false count offset = true) ∧
    readBytes rb 0 = (0, [], rb) ∧
    peekBytes rb 0 = (0, []) := by
  refine ⟨⟨rfl, rfl, rfl⟩, ⟨rfl, rfl, rfl⟩, ?_, ?_⟩
  · simp [readBytes, readBytesCore]
  · simp [peekBytes, readBytesCore]

/-- C8: clear and construction yield the same canonical empty state — a
freshly constructed buffer of positive capacity is empty, not full, with
`readableCount = 0` and `writableCount = capacity`; and for every
reachable state, `clear` produces `readCursor = capacity`,
`writeCursor = 0`: exactly the state of a fresh construction over the same
memory, regardless of prior history. -/
theorem C8_clear_resets (rb : RingBuffer) (h : Reachable rb)
    (buffer : List Nat) (size : Nat) (hlen : buffer.length = size)
    (hpos : 0 < size) :
    isEmpty (mkRingBuffer buffer size) = true ∧
    isFull (mkRingBuffer buffer size) = false ∧
    getReadableByteCount (mkRingBuffer buffer size) = 0 ∧
    getWritableByteCount (mkRingBuffer buffer size) = size ∧
    (clear rb).read = rb.size ∧
    (clear rb).write = 0 ∧
    clear rb = mkRingBuffer rb.buffer rb.size := by
  refine ⟨?_, ?_, ?_, ?_, rfl, rfl, rfl⟩
  · simp [isEmpty, mkRingBuffer]
  · simp [isFull, mkRingBuffer]
    omega
  · rw [getReadableByteCount_eq]
    simp only [mkRingBuffer, readableAt]
    split_ifs <;> omega
  · rw [getWritableByteCount_eq]
    simp only [mkRingBuffer, writableAt]
    split_ifs <;> omega

/-- C8 witness: clearing after a write equals a fresh construction. -/
theorem C8_witness :
    isEmpty (mkRingBuffer [7, 8] 2) = true ∧
    isFull (mkRingBuffer [7, 8] 2) = false ∧
    getReadableByteCount (mkRingBuffer [7, 8] 2) = 0 ∧
    getWritableByteCount (mkRingBuffer [7, 8] 2) = 2 ∧
    (clear (writeBytes (mkRingBuffer [0] 1) [9] 1).2).read
        = (writeBytes (mkRingBuffer [0] 1) [9] 1).2.size ∧
    (clear (writeBytes (mkRingBuffer [0] 1) [9] 1).2).write = 0 ∧
    clear (writeBytes (mkRingBuffer [0] 1) [9] 1).2
        = mkRingBuffer (writeBytes (mkRingBuffer [0] 1) [9] 1).2.buffer
            (writeBytes (mkRingBuffer [0] 1) [9] 1).2.size :=
  C8_clear_resets (writeBytes (mkRingBuffer [0] 1) [9] 1).2
    (Reachable.write _ [9] 1 (Reachable.init [0] 1 (by decide) (by decide)))
    [7, 8] 2 (by decide) (by decide)

/-- C9 (code bug): the claim says a zero-count request is a universal
no-op.  It is for `writeBytes`, `readBytes`, `discardBytes` and
`peekBytes` — each returns 0 and changes nothing, on any state — but not
for `peekBytesAt`: its offset simulation (a null-destination `_readBytes`
of `where` bytes, RingBuffer.h:213) runs before `count` is ever consulted,
so on the reachable wrap-crossing state, `peekBytesAt` with `count = 0`
and `offset = 2` dies in the `memcpy` through the pointer advanced past
null at RingBuffer.cpp:382 instead of returning 0 harmlessly. -/
theorem C9_zero_count_partial (rb : RingBuffer) (source : List Nat) :
    (writeBytes rb source 0 = (0, rb) ∧
     readBytes rb 0 = (0, [], rb) ∧
     discardBytes rb 0 = some (0, rb) ∧
     peekBytes rb 0 = (0, [])) ∧
    peekBytesAt wrappedState 0 2 = none := by
  refine ⟨⟨?_, ?_, ?_, ?_⟩, rfl⟩
  · simp [writeBytes]
  · simp [readBytes, readBytesCore]
  · simp [discardBytes, readBytesDest]
  · simp [peekBytes, readBytesCore]

/-- C10 (code bug): the claim says a read equals a peek followed by a
discard of the returned count.  On the reachable wrap-crossing state,
`readBytes 2` and `peekBytes 2` agree (both return 2 and the queued bytes
`[3, 4]`), but the second half of the decomposition never completes:
`discardBytes 2` crosses the wrap, so its phase 2 calls `memcpy` through
the null destination advanced at RingBuffer.cpp:382 — undefined
behaviour instead of the read's cursor motion. -/
theorem C10_read_vs_peek_discard :
    Reachable wrappedState ∧
    peekBytes wrappedState 2
      = ((readBytes wrappedState 2).1, (readBytes wrappedState 2).2.1) ∧
    discardBytes wrappedState ((readBytes wrappedState 2).1) = none :=
  ⟨wrappedState_reachable, rfl, rfl⟩

end RingBufferModel
